import Mathlib

/-!
Verification development for the `citizenship` cog
(src/citizenship/citizenship.py).

The embedding is shallow: Python values become Lean values, the `bidict`
backing `Cached` becomes an ordered association list with the exact
duplication semantics of `bidict` (setting a value that is already held by a
different key raises `ValueDuplicationError`; overwriting a key keeps its
position, as `bidict` preserves insertion order), and Python exceptions
become explicit `PyErr` results.  External collaborators that the source
only calls out to (the Discord API, the Config store, the NationStates API,
regular-expression match results) are passed in as explicit inputs or
returned as explicit effect lists, mirroring the call sites.

Strings are treated with ASCII case rules (Lean `String.toLower`,
`Char.isAlphanum`); every input appearing in the claims and in the source
is ASCII, so this matches Python behaviour on all modelled inputs.
Timestamps are modelled as whole seconds (`Int`).
-/

namespace Citizenship

/-- Python exceptions that the modelled code can raise. -/
inductive PyErr where
  /-- raised by `bidict` when a value is already present under another key -/
  | valueDuplication
  /-- raised on a failed dict lookup -/
  | keyError
  /-- raised by `nid` on an empty nation string -/
  | typeError
  /-- raised when an undefined attribute is accessed -/
  | attributeError
deriving DecidableEq, Repr

/-- User identifiers (Discord snowflakes). -/
abbrev UserId := Nat

/-- The in-memory bidirectional store: an ordered list of
(user id, nation key) pairs, mirroring the `bidict` in `Cached.data`. -/
abbrev Store := List (UserId × String)

/-- Forward lookup `self.data[item]`: the nation of a user id. -/
def lookupFwd (d : Store) (k : UserId) : Option String :=
  (d.find? fun p => decide (p.1 = k)).map (·.2)

/-- Inverse lookup `self.data.inv[value]`: the user id owning a nation. -/
def lookupInv (d : Store) (v : String) : Option UserId :=
  (d.find? fun p => decide (p.2 = v)).map (·.1)

/-- In-place value replacement of the entry keyed `k`, used when `bidict`
overwrites an existing key (insertion order is preserved). -/
def updPair (k : UserId) (v : String) (p : UserId × String) : UserId × String :=
  if p.1 = k then (k, v) else p

/-- Embedding of `bidict.__setitem__` with the default
`OnDup(key=DROP_OLD, val=RAISE)` policy used by `Cached.__setitem__`
(line 107, `self.data[item] = value`): writing a pair whose value is held
by a different key raises `ValueDuplicationError` and leaves the map
unchanged; writing to an existing key replaces its value in place;
otherwise the pair is appended. -/
def bset (d : Store) (k : UserId) (v : String) : Except PyErr Store :=
  match lookupInv d v with
  | some u => if u = k then .ok d else .error .valueDuplication
  | none =>
      if (lookupFwd d k).isSome then
        .ok (d.map (updPair k v))
      else
        .ok (d ++ [(k, v)])

/-- Embedding of `self.data.pop(item)` in `Cached.__delitem__` (line 117):
removes the entry for a present key, raises `KeyError` otherwise. -/
def bdel (d : Store) (k : UserId) : Except PyErr Store :=
  if (lookupFwd d k).isSome then
    .ok (d.filter fun p => decide (p.1 ≠ k))
  else
    .error .keyError

/-- The bijectivity invariant of the identity mapping: no two live entries
share a user id, and no two live entries share a nation key. -/
def Bij (d : Store) : Prop :=
  (d.map Prod.fst).Nodup ∧ (d.map Prod.snd).Nodup

/-- Decidable equality for `Except` results, so concrete runs can be
checked by `decide`. -/
def exceptDecEq {ε α : Type} [DecidableEq ε] [DecidableEq α] :
    DecidableEq (Except ε α) := fun x y =>
  match x, y with
  | .ok a, .ok b =>
      if h : a = b then isTrue (by rw [h]) else
        isFalse (by intro hc; cases hc; exact h rfl)
  | .ok _, .error _ => isFalse (by intro hc; cases hc)
  | .error _, .ok _ => isFalse (by intro hc; cases hc)
  | .error a, .error b =>
      if h : a = b then isTrue (by rw [h]) else
        isFalse (by intro hc; cases hc; exact h rfl)

instance {ε α : Type} [DecidableEq ε] [DecidableEq α] : DecidableEq (Except ε α) :=
  exceptDecEq

/-- Lowercasing, written over the character list so that concrete values
reduce in the kernel; agrees with Python `str.lower` on the ASCII inputs
this code handles. -/
def lowerStr (s : String) : String :=
  String.mk (s.toList.map Char.toLower)

/-- Characters kept by `nid` (the `NVALID` class `[-\w]`, ASCII reading). -/
def isNValid (c : Char) : Bool :=
  c = '-' || c = '_' || c.isAlphanum

/-- Embedding of `nid` (lines 33-37): lowercase, turn spaces into
underscores, drop every character outside `[-\w]`; an empty result raises
`TypeError`, modelled as `none`.  Written over the character list (the
Python string operations here are all per character). -/
def nid (arg : String) : Option String :=
  let lowered := arg.toList.map Char.toLower
  let replaced := lowered.map fun c => if c = ' ' then '_' else c
  let ret := replaced.filter isNValid
  if ret.isEmpty then none else some (String.mk ret)

/-- Last element of the nonempty list `a :: l`, mirroring `args[-1]`. -/
def lastOf (a : String) (l : List String) : String :=
  match l with
  | [] => a
  | b :: t => lastOf b t

/-- Embedding of `tnid` (lines 44-49) over the argument list `args`:
no field yields `(None, None)`, one field `t` yields `(None, t)`, and two
or more fields yield `(nid(args[-1]), args[0])`, where a failing `nid`
propagates as `TypeError`. -/
def tnid (args : List String) : Except PyErr (Option String × Option String) :=
  match args with
  | [] => .ok (none, none)
  | [t] => .ok (none, some t)
  | a :: b :: rest =>
      match nid (lastOf b rest) with
      | none => .error .typeError
      | some k => .ok (some k, some a)

/-- A sequence of in-memory mutations on the store, as performed by
`Cached.__setitem__` and `Cached.__delitem__`. -/
inductive StoreOp where
  | set (k : UserId) (v : String)
  | del (k : UserId)

/-- Effect of one operation on the in-memory map.  `bidict` fails clean:
when the underlying write raises, the exception propagates to the caller
but the map itself is unchanged, so the error case keeps `d`. -/
def applyOp (d : Store) : StoreOp → Store
  | .set k v => match bset d k v with | .ok e => e | .error _ => d
  | .del k => match bdel d k with | .ok e => e | .error _ => d

/-- One step of `Cached.initialize` (lines 76-85): try to insert a pair;
on `ValueDuplicationError` keep the map, and log the discarded collision
as (existing user id, discarded user id, nation). -/
def initStep (acc : Store × List (UserId × UserId × String)) (p : UserId × String) :
    Store × List (UserId × UserId × String) :=
  match bset acc.1 p.1 p.2 with
  | .ok d => (d, acc.2)
  | .error _ => (acc.1, acc.2 ++ [((lookupInv acc.1 p.2).getD 0, p.1, p.2)])

/-- Embedding of `Cached.initialize` (lines 71-85): bulk load of the
persisted (user id, nation) pairs into a fresh `bidict`, discarding and
logging collisions. -/
def initializeStore (pairs : List (UserId × String)) :
    Store × List (UserId × UserId × String) :=
  pairs.foldl initStep ([], [])

/-- Embedding of the loop of `Citizenship._identify_import` (lines
267-269): the legacy export's (nation, user id) pairs are folded into the
store with `setdefault` — a user id already present is skipped, otherwise
the pair is written, and an uncaught `ValueDuplicationError` from the
write aborts the remaining import. -/
def importFold (d : Store) (pairs : List (String × UserId)) : Except PyErr Store :=
  match pairs with
  | [] => .ok d
  | (nation, uid) :: rest =>
      if (lookupFwd d uid).isSome then importFold d rest
      else
        match bset d uid nation with
        | .error e => .error e
        | .ok d2 => importFold d2 rest

/-- A Discord role: a display name and a distinct snowflake id. -/
structure Role where
  name : String
  rid : Nat
deriving DecidableEq, Repr

/-- The Title Cache `self.cache`: nation key to title set, with the
reserved ALL key; sets are carried as lists of strings. -/
abbrev TitleCache := List (String × List String)

/-- Plain dict lookup on the title cache. -/
def assocFind? (c : TitleCache) (k : String) : Option (List String) :=
  (c.find? fun p => decide (p.1 = k)).map (·.2)

/-- Embedding of `self.cache.get(key, default)`. -/
def assocGetD (c : TitleCache) (k : String) (dflt : List String) : List String :=
  (assocFind? c k).getD dflt

/-- Embedding of `torole` (lines 792-793): first guild role whose
lower-cased name equals the title, else None. -/
def torole (guildRoles : List Role) (n : String) : Option Role :=
  guildRoles.find? fun r => decide (lowerStr r.name = n)

/-- Embedding of `base` in `_role_set` (lines 796-798): the member roles
whose lower-cased name is not in the ALL title set. -/
def baseRoles (alltitles : List String) (memberRoles : List Role) : Finset Role :=
  (memberRoles.filter fun r => decide (lowerStr r.name ∉ alltitles)).toFinset

/-- Embedding of the resolved desired roles in `_role_set` (lines
799-802): each title of the member nation (default the ex-nation tuple)
resolved to a guild role, unresolved titles discarded (`roles.discard(None)`). -/
def resolvedRoles (cache : TitleCache) (guildRoles : List Role) (nation : String) :
    Finset Role :=
  ((assocGetD cache nation ["ex-nation"]).filterMap (torole guildRoles)).toFinset

/-- Embedding of `Citizenship._role_set` (lines 791-805): returns the full
replacement role set when it differs from `base` (the check
`if roles ^ base`), else None; the ALL lookup and the nations lookup can
raise `KeyError`. -/
def roleSet (cache : TitleCache) (guildRoles memberRoles : List Role)
    (nations : Store) (memberId : UserId) : Except PyErr (Option (Finset Role)) :=
  match assocFind? cache "ALL" with
  | none => .error .keyError
  | some alltitles =>
      match lookupFwd nations memberId with
      | none => .error .keyError
      | some nation =>
          let base := baseRoles alltitles memberRoles
          let roles := base ∪ resolvedRoles cache guildRoles nation
          if (roles \ base) ∪ (base \ roles) ≠ ∅ then .ok (some roles) else .ok none

/-- Roles the reconciliation outcome adds relative to the current roles
(the effect of `member.edit(roles=roles)`). -/
def toAdd (res : Option (Finset Role)) (cur : Finset Role) : Finset Role :=
  match res with
  | none => ∅
  | some l => l \ cur

/-- Roles the reconciliation outcome removes relative to the current roles. -/
def toRemove (res : Option (Finset Role)) (cur : Finset Role) : Finset Role :=
  match res with
  | none => ∅
  | some l => cur \ l

/-- Whether `_role_task` and `_add_roles` issue the external
`member.edit` call: only on a truthy (non-None, nonempty) role list. -/
def issuesCall (res : Option (Finset Role)) : Bool :=
  match res with
  | none => false
  | some l => decide (l ≠ ∅)

/-- Deferred persistent actions scheduled against the per-user Config
store (`config.user_from_id(key).nation.set/.clear`). -/
inductive PAction where
  | pset (uid : UserId) (nation : String)
  | pclear (uid : UserId)
deriving DecidableEq, Repr

/-- State of the forward `Cached` view: the bidict data and the
transaction key set `_cm` (None outside a scope, a set of touched user
ids inside one). -/
structure CachedState where
  data : Store
  cm : Option (List UserId)
deriving DecidableEq, Repr

/-- Adding a key to the `_cm` set. -/
def insertKey (cm : List UserId) (k : UserId) : List UserId :=
  if k ∈ cm then cm else cm ++ [k]

/-- Embedding of `Cached.__setitem__` (lines 106-114, forward view):
write the pair into the bidict; outside a scope schedule the persistent
write immediately (fire and forget), inside a scope record the touched
key instead.  Returns (raised error if any, new state, scheduled
persistent actions). -/
def csetitem (s : CachedState) (k : UserId) (v : String) :
    Option PyErr × CachedState × List PAction :=
  match bset s.data k v with
  | .error e => (some e, s, [])
  | .ok d2 =>
      match s.cm with
      | none => (none, { s with data := d2 }, [.pset k v])
      | some cm => (none, { data := d2, cm := some (insertKey cm k) }, [])

/-- Embedding of `Cached.__delitem__` (lines 116-124, forward view): pop
the entry; outside a scope schedule the persistent clear; inside a scope
line 124 reads the attribute `_cm_del`, which no code ever defines, so
Python raises `AttributeError` after the in-memory pop already happened,
and the touched-key set is left unchanged. -/
def cdelitem (s : CachedState) (k : UserId) :
    Option PyErr × CachedState × List PAction :=
  match bdel s.data k with
  | .error e => (some e, s, [])
  | .ok d2 =>
      match s.cm with
      | none => (none, { s with data := d2 }, [.pclear k])
      | some _ => (some .attributeError, { s with data := d2 }, [])

/-- Embedding of `Cached.__aexit__` (lines 97-104): on leaving the scope,
commit every touched key in one pass — a key absent from the in-memory
map is cleared in persistent storage, a present key is written with its
current value — and drop the scope. -/
def caexit (s : CachedState) : CachedState × List PAction :=
  match s.cm with
  | none => ({ s with cm := none }, [])
  | some cm =>
      ({ s with cm := none },
        cm.map fun k =>
          match lookupFwd s.data k with
          | none => .pclear k
          | some v => .pset k v)

/-- In-memory cog state relevant to the identity workflows: the nations
store, the cooldown table (timestamps in whole seconds, keyed by the
user — Discord user objects hash and compare by id), and the title
cache. -/
structure CogState where
  nations : Store
  cooldowns : List (UserId × Int)
  cache : TitleCache
deriving DecidableEq, Repr

/-- An enabled guild: its id, its role list, and its member ids. -/
structure Guild where
  gid : Nat
  roles : List Role
  members : List UserId
deriving DecidableEq, Repr

/-- The role removals issued: one entry per enabled guild where the user
is a member, with the roles stripped by `member.remove_roles`. -/
abbrev Removals := List (Nat × List Role)

/-- The requester kinds accepted by `red_delete_data_for_user` (line 223). -/
def allowedRequesters : List String :=
  ["discord_deleted_user", "owner", "user", "user_strict"]

/-- The per-guild strip loop shared by `red_delete_data_for_user` (lines
229-235) and `_identify_remove` (lines 444-450): in every enabled guild
where the user is a member, remove every role whose lower-cased name is
in the given ALL set (per-guild permission failures are suppressed, so
each guild is processed independently). -/
def stripAllRoles (alltitles : List String) (uid : UserId) (guilds : List Guild) :
    Removals :=
  guilds.filterMap fun g =>
    if uid ∈ g.members then
      some (g.gid, g.roles.filter fun r => decide (lowerStr r.name ∈ alltitles))
    else none

/-- Embedding of `Citizenship.red_delete_data_for_user` (lines 222-235).
Unknown requesters are ignored.  Inside the transaction scope the code
runs `self.nations.pop(user_id, None)`: with a live entry the
`MutableMapping.pop` getitem succeeds and the delete pops the bidict
entry, after which `Cached.__delitem__` raises `AttributeError` on the
undefined `_cm_del` (line 124); the exception propagates (the scope exit
still runs, committing the empty touched set), so the ALL lookup and the
role-stripping loop are never reached.  Without a live entry `pop`
returns the default and the code proceeds. -/
def redDeleteData (st : CogState) (requester : String) (uid : UserId)
    (guilds : List Guild) : CogState × Removals × Option PyErr :=
  if ¬(requester ∈ allowedRequesters) then (st, [], none)
  else
    match lookupFwd st.nations uid with
    | some _ =>
        ({ st with nations := st.nations.filter fun p => decide (p.1 ≠ uid) },
          [], some .attributeError)
    | none =>
        match assocFind? st.cache "ALL" with
        | none => (st, [], some .keyError)
        | some alltitles => (st, stripAllRoles alltitles uid guilds, none)

/-- Embedding of `Citizenship._identify_remove` (lines 435-451): delete
the author entry (a KeyError reports no-nation instead), look up the
reserved ALL set in the title cache, strip those roles in every enabled
guild, and confirm.  The delete runs outside any scope, so it schedules
the fire-and-forget persistent clear.  Returns final state, removals,
the message sent if any, and an uncaught error if any. -/
def identifyRemove (st : CogState) (author : UserId) (guilds : List Guild) :
    CogState × Removals × Option String × Option PyErr :=
  match bdel st.nations author with
  | .error _ => (st, [], some "You have no nation associated with your account.", none)
  | .ok d2 =>
      let st1 := { st with nations := d2 }
      match assocFind? st.cache "ALL" with
      | none => (st1, [], none, some .keyError)
      | some alltitles =>
          (st1, stripAllRoles alltitles author guilds, some "Nation removed.", none)

/-- Failures of the NationStates verification call (`Api("region wa",
nation=...)` on line 405): the nation does not exist, or the transport
failed. -/
inductive ApiError where
  | notFound
  | http
deriving DecidableEq, Repr

/-- The fields `set_nation` reads from a successful verification
response: the REGION text and the UNSTATUS text. -/
structure ApiData where
  region : String
  unstatus : String
deriving DecidableEq, Repr

/-- The observable outcome of one `set_nation` invocation: which message
path returned, or which uncaught exception was raised. -/
inductive Outcome where
  | cooldownMsg (minutes : Int)
  | invalidInput
  | nationRemoved
  | alreadyClaimedTarget
  | alreadyClaimedSelf
  | conflictOther (owner : UserId)
  | noSuchUser
  | declinedOverwrite
  | nationNotFound
  | apiUnavailable
  | success (roleForbidden : Bool)
  | raised (e : PyErr)
deriving DecidableEq, Repr

/-- Cooldown-table lookup (`self.cooldowns[member]`). -/
def lookupA (l : List (UserId × Int)) (k : UserId) : Option Int :=
  (l.find? fun p => decide (p.1 = k)).map (·.2)

/-- Cooldown-table delete (`del self.cooldowns[member]`). -/
def eraseA (l : List (UserId × Int)) (k : UserId) : List (UserId × Int) :=
  l.filter fun p => decide (p.1 ≠ k)

/-- Cooldown-table write (`self.cooldowns[member] = ...`): in-place
update of a present key, append otherwise (dicts preserve insertion
order). -/
def setA (l : List (UserId × Int)) (k : UserId) (t : Int) : List (UserId × Int) :=
  if (lookupA l k).isSome then l.map fun p => if p.1 = k then (k, t) else p
  else l ++ [(k, t)]

/-- Embedding of the cooldown phase of `set_nation` (lines 337-352),
timestamps in whole seconds: third-party calls skip the check; a missing
entry (KeyError) passes; a positive remaining wait returns the blocked
minutes (`total_seconds() // 60`, equal to truncating division for a
positive remainder); a stale entry is deleted before passing. -/
def cooldownCheck (cds : List (UserId × Int)) (member : Option UserId)
    (third : Bool) (now : Int) : Int ⊕ List (UserId × Int) :=
  if third then .inr cds
  else
    match member with
    | none => .inr cds
    | some m =>
        match lookupA cds m with
        | none => .inr cds
        | some t =>
            if 0 < t + 3600 - now then .inl ((t + 3600 - now) / 60)
            else .inr (eraseA cds m)

/-- Embedding of `self.cache.setdefault(nation, set()).add(title)` (line
415). -/
def cacheAdd (c : TitleCache) (n t : String) : TitleCache :=
  match assocFind? c n with
  | some _ => c.map fun p => if p.1 = n then (n, if t ∈ p.2 then p.2 else p.2 ++ [t]) else p
  | none => c ++ [(n, [t])]

/-- Embedding of `self.cache[nation].discard(title)` (line 416); the key
is always present here, created by the preceding `setdefault`. -/
def cacheDiscard (c : TitleCache) (n t : String) : TitleCache :=
  c.map fun p => if p.1 = n then (n, p.2.filter fun x => decide (x ≠ t)) else p

/-- Embedding of the membership test `True in self.cache[nation]` on line
418: in Python, the boolean `True` never equals any string element, so
the test is always false. -/
def trueInStrSet (_s : List String) : Bool := false

/-- Embedding of the tail of `set_nation` (lines 376-433), entered with a
resolved member id and normalized nation key: the one-nation-per-account
confirmation (the `confirm` input is the yes/no answer, `false` on
timeout), the verification call (`api` is its result), the store write
(which can raise `ValueDuplicationError`), the cooldown stamp on line 413
(executed for self-service AND third-party claims alike), the live cache
update, and `_add_roles` whose permission failure (`roleForbidden`) is
caught and only changes the message. -/
def setNationRest (st : CogState) (m : UserId) (third : Bool) (now : Int)
    (nation : String) (api : Except ApiError ApiData)
    (confirm roleForbidden : Bool) : Outcome × CogState :=
  if ¬third = true ∧ (lookupFwd st.nations m).isSome ∧ ¬confirm = true then
    (.declinedOverwrite, st)
  else
    match api with
    | .error .notFound => (.nationNotFound, st)
    | .error .http => (.apiUnavailable, st)
    | .ok data =>
        match bset st.nations m nation with
        | .error e => (.raised e, st)
        | .ok d2 =>
            let st1 : CogState :=
              { st with nations := d2, cooldowns := setA st.cooldowns m now }
            match nid data.region with
            | none => (.raised .typeError, st1)
            | some reg =>
                let tnp := reg = "the_north_pacific"
                let c1 := cacheAdd st1.cache nation (if tnp then "residents" else "visitors")
                let c2 := cacheDiscard c1 nation (if tnp then "visitors" else "residents")
                let c3 :=
                  if trueInStrSet (assocGetD c2 nation []) = true ∧
                      lowerStr data.unstatus ≠ "non-member"
                  then cacheAdd c2 nation "wa residents" else c2
                (.success roleForbidden, { st1 with cache := c3 })

/-- Embedding of `Citizenship.set_nation` (lines 330-433).  The regular
expression match on the raw input is an oracle input `parsed` carrying
the two groups (`None` when the match failed); a tag group other than
`nation` (case-insensitively) rejects the input.  On a claimed nation: a
third-party call without a member unclaims it through the inverse view;
a member-less self call would die on `member.id` (`AttributeError`); the
owner gets an already-claimed message; a self-service call by anyone
else gets the conflict message.  An unclaimed nation with no member
reports that no user claimed it.  All remaining work happens in
`setNationRest`. -/
def setNation (st : CogState) (member : Option UserId) (third : Bool) (now : Int)
    (parsed : Option (Option String × String)) (api : Except ApiError ApiData)
    (confirm roleForbidden : Bool) : Outcome × CogState :=
  match cooldownCheck st.cooldowns member third now with
  | .inl mins => (.cooldownMsg mins, st)
  | .inr cds1 =>
      let st1 : CogState := { st with cooldowns := cds1 }
      match parsed with
      | none => (.invalidInput, st1)
      | some (g1, g2) =>
          if (match g1 with
              | some tag => decide (lowerStr tag ≠ "nation")
              | none => false) = true then
            (.invalidInput, st1)
          else
            match nid g2 with
            | none => (.raised .typeError, st1)
            | some nation =>
                match lookupInv st1.nations nation with
                | some owner =>
                    if third = true ∧ member = none then
                      (.nationRemoved,
                        { st1 with
                          nations := st1.nations.filter fun p => decide (p.2 ≠ nation) })
                    else
                      match member with
                      | none => (.raised .attributeError, st1)
                      | some m =>
                          if m = owner then
                            if third then (.alreadyClaimedTarget, st1)
                            else (.alreadyClaimedSelf, st1)
                          else if ¬third = true then (.conflictOther owner, st1)
                          else setNationRest st1 m third now nation api confirm roleForbidden
                | none =>
                    match member with
                    | none => (.noSuchUser, st1)
                    | some m => setNationRest st1 m third now nation api confirm roleForbidden

theorem lookupInv_eq_none_iff (d : Store) (v : String) :
    lookupInv d v = none ↔ ∀ p ∈ d, p.2 ≠ v := by
  simp [lookupInv, List.find?_eq_none]

theorem lookupFwd_eq_none_iff (d : Store) (k : UserId) :
    lookupFwd d k = none ↔ ∀ p ∈ d, p.1 ≠ k := by
  simp [lookupFwd, List.find?_eq_none]

theorem updPair_eq_of_ne {k : UserId} {v : String} {p : UserId × String}
    (hp : p.1 ≠ k) : updPair k v p = p := by
  simp [updPair, hp]

theorem updPair_eq_of_eq {k : UserId} {v : String} {p : UserId × String}
    (hp : p.1 = k) : updPair k v p = (k, v) := by
  simp [updPair, hp]

theorem map_fst_update (d : Store) (k : UserId) (v : String) :
    ((d.map (updPair k v)).map Prod.fst) = d.map Prod.fst := by
  induction d with
  | nil => rfl
  | cons p t ih =>
      by_cases hp : p.1 = k <;>
        simp [updPair_eq_of_ne, updPair_eq_of_eq, hp, updPair, ih]

theorem nodup_snd_update (d : Store) (k : UserId) (v : String)
    (hf : (d.map Prod.fst).Nodup) (hs : (d.map Prod.snd).Nodup)
    (hv : ∀ p ∈ d, p.2 ≠ v) :
    ((d.map (updPair k v)).map Prod.snd).Nodup := by
  induction d with
  | nil => simp
  | cons p t ih =>
      simp only [List.map_cons, List.nodup_cons] at hf hs ⊢
      by_cases hp : p.1 = k
      · have ht : ∀ q ∈ t, updPair k v q = q := by
          intro q hq
          refine updPair_eq_of_ne ?_
          intro hqk
          exact hf.1 (List.mem_map.mpr ⟨q, hq, by rw [hqk, hp]⟩)
        have ht2 : t.map (updPair k v) = t :=
          (List.map_congr_left (g := id) fun q hq => ht q hq).trans (List.map_id t)
        rw [ht2, updPair_eq_of_eq hp]
        constructor
        · intro hmem
          rcases List.mem_map.mp hmem with ⟨q, hq, hq2⟩
          exact hv q (List.mem_cons_of_mem _ hq) hq2
        · exact hs.2
      · rw [updPair_eq_of_ne hp]
        constructor
        · intro hmem
          rcases List.mem_map.mp hmem with ⟨q, hq, hq2⟩
          rcases List.mem_map.mp hq with ⟨q0, hq0, hq0e⟩
          by_cases hqk : q0.1 = k
          · rw [updPair_eq_of_eq hqk] at hq0e
            rw [← hq0e] at hq2
            exact hv p (List.mem_cons_self _ _) hq2.symm
          · rw [updPair_eq_of_ne hqk] at hq0e
            rw [← hq0e] at hq2
            exact hs.1 (List.mem_map.mpr ⟨q0, hq0, hq2⟩)
        · exact ih hf.2 hs.2 (fun q hq => hv q (List.mem_cons_of_mem _ hq))

theorem bij_bset {d d' : Store} {k : UserId} {v : String}
    (hb : Bij d) (h : bset d k v = .ok d') : Bij d' := by
  unfold bset at h
  rcases hinv : lookupInv d v with _ | u
  · rw [hinv] at h
    rcases hfwd : lookupFwd d k with _ | w
    · rw [hfwd] at h
      simp only [Option.isSome_none, Bool.false_eq_true, if_false, Except.ok.injEq] at h
      subst h
      have hknotin : ∀ p ∈ d, p.1 ≠ k := (lookupFwd_eq_none_iff d k).mp hfwd
      have hvnotin : ∀ p ∈ d, p.2 ≠ v := (lookupInv_eq_none_iff d v).mp hinv
      constructor
      · simp only [List.map_append, List.map_cons, List.map_nil]
        rw [List.nodup_append]
        refine ⟨hb.1, List.nodup_singleton _, ?_⟩
        intro x hx hy
        simp only [List.mem_singleton] at hy
        subst hy
        rcases List.mem_map.mp hx with ⟨q, hq, hq1⟩
        exact hknotin q hq hq1
      · simp only [List.map_append, List.map_cons, List.map_nil]
        rw [List.nodup_append]
        refine ⟨hb.2, List.nodup_singleton _, ?_⟩
        intro x hx hy
        simp only [List.mem_singleton] at hy
        subst hy
        rcases List.mem_map.mp hx with ⟨q, hq, hq2⟩
        exact hvnotin q hq hq2
    · rw [hfwd] at h
      simp only [Option.isSome_some, if_true, Except.ok.injEq] at h
      subst h
      refine ⟨?_, ?_⟩
      · rw [map_fst_update]
        exact hb.1
      · exact nodup_snd_update d k v hb.1 hb.2 ((lookupInv_eq_none_iff d v).mp hinv)
  · simp only [hinv] at h
    by_cases huk : u = k
    · rw [if_pos huk] at h
      cases h
      exact hb
    · rw [if_neg huk] at h
      exact Except.noConfusion h

theorem bij_bdel {d d' : Store} {k : UserId}
    (hb : Bij d) (h : bdel d k = .ok d') : Bij d' := by
  unfold bdel at h
  split at h
  · simp only [Except.ok.injEq] at h
    subst h
    constructor
    · exact hb.1.sublist (List.Sublist.map _ (List.filter_sublist d))
    · exact hb.2.sublist (List.Sublist.map _ (List.filter_sublist d))
  · exact absurd h (by simp)

theorem bij_applyOp {d : Store} (hb : Bij d) (op : StoreOp) : Bij (applyOp d op) := by
  cases op with
  | set k v =>
      rcases h : bset d k v with e | d'
      · simpa only [applyOp, h] using hb
      · simpa only [applyOp, h] using bij_bset hb h
  | del k =>
      rcases h : bdel d k with e | d'
      · simpa only [applyOp, h] using hb
      · simpa only [applyOp, h] using bij_bdel hb h

theorem bij_initStep {acc : Store × List (UserId × UserId × String)}
    (hb : Bij acc.1) (p : UserId × String) : Bij (initStep acc p).1 := by
  rcases h : bset acc.1 p.1 p.2 with e | d'
  · simpa only [initStep, h] using hb
  · simpa only [initStep, h] using bij_bset hb h

theorem bij_initializeStore (pairs : List (UserId × String)) :
    Bij (initializeStore pairs).1 := by
  unfold initializeStore
  suffices h : ∀ (l : List (UserId × String)) (acc : Store × List (UserId × UserId × String)),
      Bij acc.1 → Bij (l.foldl initStep acc).1 by
    exact h pairs ([], []) ⟨List.nodup_nil, List.nodup_nil⟩
  intro l
  induction l with
  | nil => intro acc h; exact h
  | cons p t ih => intro acc h; exact ih _ (bij_initStep h p)

theorem lookupFwd_cons (p : UserId × String) (t : Store) (u : UserId) :
    lookupFwd (p :: t) u = if p.1 = u then some p.2 else lookupFwd t u := by
  simp only [lookupFwd, List.find?_cons]
  by_cases h : p.1 = u
  · simp [h]
  · simp [h]

theorem lookupInv_cons (p : UserId × String) (t : Store) (v : String) :
    lookupInv (p :: t) v = if p.2 = v then some p.1 else lookupInv t v := by
  simp only [lookupInv, List.find?_cons]
  by_cases h : p.2 = v
  · simp [h]
  · simp [h]

theorem inj_fst_of_bij {d : Store} (hb : Bij d) :
    ∀ p ∈ d, ∀ q ∈ d, p.1 = q.1 → p = q := by
  intro p hp q hq hpq
  exact List.inj_on_of_nodup_map hb.1 hp hq hpq

theorem lookupFwd_of_mem {d : Store} {p : UserId × String}
    (hb : Bij d) (hp : p ∈ d) : lookupFwd d p.1 = some p.2 := by
  induction d with
  | nil => cases hp
  | cons q t ih =>
      rw [lookupFwd_cons]
      rcases List.mem_cons.mp hp with rfl | hpt
      · rw [if_pos rfl]
      · by_cases hq : q.1 = p.1
        · have : q = p :=
            inj_fst_of_bij hb q (List.mem_cons_self _ _) p hp hq
          rw [if_pos hq, this]
        · rw [if_neg hq]
          exact ih ⟨hb.1.of_cons, hb.2.of_cons⟩ hpt

theorem lookupFwd_update_self (d : Store) (k : UserId) (v : String)
    (h : (lookupFwd d k).isSome = true) :
    lookupFwd (d.map (updPair k v)) k = some v := by
  induction d with
  | nil => simp [lookupFwd] at h
  | cons p t ih =>
      rw [lookupFwd_cons] at h
      by_cases hp : p.1 = k
      · simp [List.map_cons, updPair_eq_of_eq hp, lookupFwd_cons]
      · rw [if_neg hp] at h
        simp only [List.map_cons, updPair_eq_of_ne hp, lookupFwd_cons, if_neg hp]
        exact ih h

theorem lookupFwd_update_other (d : Store) (k : UserId) (v : String)
    (u : UserId) (hu : u ≠ k) :
    lookupFwd (d.map (updPair k v)) u = lookupFwd d u := by
  induction d with
  | nil => rfl
  | cons p t ih =>
      by_cases hp : p.1 = k
      · have hku : ¬((k : UserId) = u) := fun h => hu h.symm
        have hpu : ¬(p.1 = u) := by rw [hp]; exact hku
        simp only [List.map_cons, updPair_eq_of_eq hp, lookupFwd_cons]
        rw [if_neg hku, if_neg hpu]
        exact ih
      · simp only [List.map_cons, updPair_eq_of_ne hp, lookupFwd_cons]
        by_cases hpu : p.1 = u
        · rw [if_pos hpu, if_pos hpu]
        · rw [if_neg hpu, if_neg hpu]
          exact ih

theorem lookupFwd_append_single (d : Store) (k : UserId) (v : String) (u : UserId) :
    lookupFwd (d ++ [(k, v)]) u =
      match lookupFwd d u with
      | some w => some w
      | none => if k = u then some v else none := by
  induction d with
  | nil =>
      simp only [List.nil_append, lookupFwd_cons]
      by_cases hk : k = u
      · simp [hk, lookupFwd]
      · simp [hk, lookupFwd]
  | cons p t ih =>
      simp only [List.cons_append, lookupFwd_cons]
      by_cases hpu : p.1 = u
      · rw [if_pos hpu, if_pos hpu]
      · rw [if_neg hpu, if_neg hpu]
        exact ih

/-- C4 counterexample: with the mapping holding (user 1, nation a), writing
(user 2, nation a) does not upsert; the in-memory insert raises
`ValueDuplicationError`, so `set` is not total. -/
theorem c4_set_not_total_cex :
    bset [(1, "a")] 2 "a" = .error .valueDuplication ∧
      ∀ d', bset [(1, "a")] 2 "a" ≠ .ok d' := by
  have he : bset [(1, "a")] 2 "a" = .error .valueDuplication := by decide
  refine ⟨he, ?_⟩
  intro d' h
  rw [he] at h
  exact Except.noConfusion h

/-- C4 amended: `set(user_id, nation_key)` replaces any prior entry for
that user id and inserts the pair, leaving other users untouched, whenever
the nation key is not already held by a different user; when it is, the
in-memory write raises `ValueDuplicationError` instead of removing the
other user's entry. -/
theorem c4_set_upsert_amended (d : Store) (k : UserId) (v : String) :
    (Bij d → (∀ u, lookupInv d v = some u → u = k) →
      ∃ d', bset d k v = .ok d' ∧ lookupFwd d' k = some v ∧
        ∀ u, u ≠ k → lookupFwd d' u = lookupFwd d u)
  ∧ (∀ u, u ≠ k → lookupInv d v = some u →
      bset d k v = .error .valueDuplication) := by
  constructor
  · intro hb hfree
    rcases hinv : lookupInv d v with _ | u
    · rcases hfwd : lookupFwd d k with _ | w
      · refine ⟨d ++ [(k, v)], ?_, ?_, ?_⟩
        · simp [bset, hinv, hfwd]
        · rw [lookupFwd_append_single, hfwd]
          simp
        · intro u hu
          rw [lookupFwd_append_single]
          rcases h : lookupFwd d u with _ | w
          · simp [Ne.symm hu]
          · rfl
      · refine ⟨d.map (updPair k v), ?_, ?_, ?_⟩
        · simp [bset, hinv, hfwd]
        · exact lookupFwd_update_self d k v (by rw [hfwd]; rfl)
        · intro u hu
          exact lookupFwd_update_other d k v u hu
    · have huk : u = k := hfree u hinv
      refine ⟨d, ?_, ?_, fun u _ => rfl⟩
      · simp [bset, hinv, huk]
      · unfold lookupInv at hinv
        rcases hq : d.find? fun p => decide (p.2 = v) with _ | q
        · rw [hq] at hinv
          exact Option.noConfusion hinv
        · rw [hq] at hinv
          have hqv : q.2 = v := by
            have := List.find?_some hq
            simpa using this
          have hq1 : q.1 = k := by
            have h3 : some q.1 = some u := hinv
            rw [Option.some.inj h3, huk]
          have := lookupFwd_of_mem hb (List.mem_of_find?_eq_some hq)
          rw [hq1, hqv] at this
          exact this
  · intro u hu hinv
    simp [bset, hinv, hu]

/-- C4 witness: inserting (1, a) into the empty mapping succeeds and is
visible in the forward lookup. -/
theorem c4_set_upsert_amended_witness :
    ∃ d', bset ([] : Store) 1 "a" = .ok d' ∧ lookupFwd d' 1 = some "a" ∧
      ∀ u, u ≠ 1 → lookupFwd d' u = lookupFwd ([] : Store) u :=
  (c4_set_upsert_amended [] 1 "a").1 ⟨List.nodup_nil, List.nodup_nil⟩
    (by intro u h; simp [lookupInv, List.find?] at h)

/-- C8 counterexample: importing nation a then nation b for the same user 1
keeps the FIRST pair (user 1 maps to a), not the most recent; and importing
a pair whose nation is already claimed by a different user raises, so the
load can fail on a collision. -/
theorem c8_import_first_wins_cex :
    importFold [] [("a", 1), ("b", 1)] = .ok [(1, "a")] ∧
    importFold [] [("a", 1), ("b", 1)] ≠ .ok [(1, "b")] ∧
    importFold [(1, "a")] [("a", 2)] = .error .valueDuplication := by
  refine ⟨by decide, by decide, by decide⟩

/-- C8 amended: the legacy-export bulk load keeps the first occurrence for
each user id — a pair whose user id is already present is discarded
silently, with no log — and a pair whose nation key is already claimed by
a different user raises `ValueDuplicationError`, aborting the rest of the
load, rather than being discarded. -/
theorem c8_import_amended (d : Store) (nation : String) (uid : UserId)
    (rest : List (String × UserId)) :
    ((lookupFwd d uid).isSome = true →
       importFold d ((nation, uid) :: rest) = importFold d rest)
  ∧ (∀ u, u ≠ uid → lookupInv d nation = some u → lookupFwd d uid = none →
       importFold d ((nation, uid) :: rest) = .error .valueDuplication) := by
  constructor
  · intro h
    simp only [importFold]
    rw [if_pos h]
  · intro u hu hinv hfwd
    have hb : bset d uid nation = .error .valueDuplication := by
      simp [bset, hinv, hu]
    simp only [importFold]
    rw [if_neg (by rw [hfwd]; simp), hb]

/-- C8 witness: a second pair for user 1 is skipped by the import. -/
theorem c8_import_amended_witness :
    importFold [(1, "a")] [("b", 1)] = importFold [(1, "a")] [] :=
  (c8_import_amended [(1, "a")] "b" 1 []).1 rfl

/-- C9 counterexample: on the two-field row (alpha, Beta Nation), `tnid`
returns the nation key normalized from the LAST field paired with the
FIRST field as title, not the key of the first field with the second as
title as the claim states. -/
theorem c9_tnid_order_cex :
    tnid ["alpha", "Beta Nation"] = .ok (some "beta_nation", some "alpha") ∧
    tnid ["alpha", "Beta Nation"] ≠ .ok (some "alpha", some "Beta Nation") := by
  refine ⟨by decide, by decide⟩

/-- C9 amended: a single field t yields (no key, t); two fields (a, b)
yield the normalized nation key of the LAST field b together with the
FIRST field a as the title. -/
theorem c9_tnid_amended :
    (∀ t, tnid [t] = .ok (none, some t))
  ∧ (∀ a b k, nid b = some k → tnid [a, b] = .ok (some k, some a)) := by
  constructor
  · intro t
    rfl
  · intro a b k h
    simp only [tnid, lastOf, h]

/-- C9 witness: the pair (t, nation x) maps to key nation_x with title t. -/
theorem c9_tnid_amended_witness :
    tnid ["t", "nation x"] = .ok (some "nation_x", some "t") :=
  c9_tnid_amended.2 "t" "nation x" "nation_x" (by decide)

theorem mem_baseRoles {alltitles : List String} {mem : List Role} {r : Role} :
    r ∈ baseRoles alltitles mem ↔ r ∈ mem ∧ lowerStr r.name ∉ alltitles := by
  simp [baseRoles, List.mem_filter]

theorem desired_stable {alltitles : List String} (resolved : Finset Role)
    (mem2 : List Role) (base l : Finset Role)
    (hl : l = base ∪ resolved)
    (hbase : ∀ r ∈ base, lowerStr r.name ∉ alltitles)
    (hmem2 : mem2.toFinset = l) :
    baseRoles alltitles mem2 ∪ resolved = l := by
  ext r
  rw [Finset.mem_union, mem_baseRoles]
  constructor
  · rintro (⟨hr2, _⟩ | hr2)
    · rw [← hmem2]
      exact List.mem_toFinset.mpr hr2
    · rw [hl]
      exact Finset.mem_union_right _ hr2
  · intro hrl
    have hrl2 := hrl
    rw [hl] at hrl2
    rcases Finset.mem_union.mp hrl2 with hrb | hrr
    · refine Or.inl ⟨?_, hbase r hrb⟩
      rw [← hmem2] at hrl
      exact List.mem_toFinset.mp hrl
    · exact Or.inr hrr

theorem roleSet_spec (cache : TitleCache) (g mem : List Role) (nations : Store)
    (uid : UserId) (res : Option (Finset Role))
    (hr : roleSet cache g mem nations uid = .ok res) :
    ∃ alltitles nation,
      assocFind? cache "ALL" = some alltitles ∧
      lookupFwd nations uid = some nation ∧
      ((res = some (baseRoles alltitles mem ∪ resolvedRoles cache g nation) ∧
          ((baseRoles alltitles mem ∪ resolvedRoles cache g nation) \
              baseRoles alltitles mem) ∪
            (baseRoles alltitles mem \
              (baseRoles alltitles mem ∪ resolvedRoles cache g nation)) ≠ ∅)
        ∨ (res = none ∧
          ¬(((baseRoles alltitles mem ∪ resolvedRoles cache g nation) \
              baseRoles alltitles mem) ∪
            (baseRoles alltitles mem \
              (baseRoles alltitles mem ∪ resolvedRoles cache g nation)) ≠ ∅))) := by
  rcases h1 : assocFind? cache "ALL" with _ | alltitles
  · rw [roleSet, h1] at hr
    exact Except.noConfusion hr
  rcases h2 : lookupFwd nations uid with _ | nation
  · rw [roleSet, h1, h2] at hr
    exact Except.noConfusion hr
  refine ⟨alltitles, nation, rfl, rfl, ?_⟩
  rw [roleSet, h1, h2] at hr
  have hr2 : (if ((baseRoles alltitles mem ∪ resolvedRoles cache g nation) \
          baseRoles alltitles mem) ∪
        (baseRoles alltitles mem \
          (baseRoles alltitles mem ∪ resolvedRoles cache g nation)) ≠ ∅
      then Except.ok (some (baseRoles alltitles mem ∪ resolvedRoles cache g nation))
      else (Except.ok none : Except PyErr (Option (Finset Role)))) = Except.ok res := hr
  by_cases hc : ((baseRoles alltitles mem ∪ resolvedRoles cache g nation) \
        baseRoles alltitles mem) ∪
      (baseRoles alltitles mem \
        (baseRoles alltitles mem ∪ resolvedRoles cache g nation)) ≠ ∅
  · rw [if_pos hc] at hr2
    exact Or.inl ⟨(Except.ok.inj hr2).symm, hc⟩
  · rw [if_neg hc] at hr2
    exact Or.inr ⟨(Except.ok.inj hr2).symm, hc⟩

/-- C5 counterexample: member 1 of nation tnp already holds exactly the
desired role Citizens, so the computed add and remove sets are both
empty, yet the reconciler returns a full replacement list and the
external role-mutation call is issued anyway (the guard compares the
desired set against `base`, not against the current roles). -/
theorem c5_empty_diff_still_calls_cex :
    roleSet [("ALL", ["citizens"]), ("tnp", ["citizens"])]
        [⟨"Citizens", 10⟩] [⟨"Citizens", 10⟩] [(1, "tnp")] 1 =
      .ok (some {⟨"Citizens", 10⟩}) ∧
    toAdd (some {⟨"Citizens", 10⟩}) ({⟨"Citizens", 10⟩} : Finset Role) = ∅ ∧
    toRemove (some {⟨"Citizens", 10⟩}) ({⟨"Citizens", 10⟩} : Finset Role) = ∅ ∧
    issuesCall (some ({⟨"Citizens", 10⟩} : Finset Role)) = true := by
  refine ⟨by decide, by decide, by decide, by decide⟩

/-- C5 amended: reconciliation is a pure diff — the add set is disjoint
from the current roles, the remove set is disjoint from the returned
desired set, and re-running with the same cache on the applied outcome
yields empty add and remove sets — but the no-call guard is
`roles ^ base`, not emptiness of the diff: whenever a set is returned it
is nonempty and the external call is issued, even if it equals the
current roles; no call happens exactly when None is returned. -/
theorem c5_reconcile_diff_amended
    (cache : TitleCache) (g mem : List Role) (nations : Store) (uid : UserId)
    (res : Option (Finset Role))
    (hr : roleSet cache g mem nations uid = .ok res) :
    (toAdd res mem.toFinset ∩ mem.toFinset = ∅)
  ∧ (∀ l, res = some l → toRemove res mem.toFinset ∩ l = ∅)
  ∧ (∀ l (mem2 : List Role) (res2 : Option (Finset Role)), res = some l →
       mem2.toFinset = l → roleSet cache g mem2 nations uid = .ok res2 →
       toAdd res2 l = ∅ ∧ toRemove res2 l = ∅)
  ∧ (∀ l, res = some l → l ≠ ∅ ∧ issuesCall res = true)
  ∧ (res = none → issuesCall res = false) := by
  obtain ⟨alltitles, nation, h1, h2, hshape⟩ := roleSet_spec cache g mem nations uid res hr
  refine ⟨?_, ?_, ?_, ?_, ?_⟩
  · cases res with
    | none => simp [toAdd]
    | some l => exact Finset.sdiff_inter_self _ _
  · intro l hl
    rw [hl]
    exact Finset.sdiff_inter_self _ _
  · intro l mem2 res2 hl hmem2 hr2
    subst hl
    have hleq : l = baseRoles alltitles mem ∪ resolvedRoles cache g nation := by
      rcases hshape with ⟨he, _⟩ | ⟨he, _⟩
      · exact Option.some.inj he
      · exact Option.noConfusion he
    have hstable : baseRoles alltitles mem2 ∪ resolvedRoles cache g nation = l := by
      refine desired_stable _ mem2 (baseRoles alltitles mem) l hleq ?_ hmem2
      intro r hrb
      exact (mem_baseRoles.mp hrb).2
    obtain ⟨a2, n2, h1b, h2b, hshape2⟩ := roleSet_spec cache g mem2 nations uid res2 hr2
    have ha : a2 = alltitles := Option.some.inj (h1b.symm.trans h1)
    have hn : n2 = nation := Option.some.inj (h2b.symm.trans h2)
    rw [ha, hn] at hshape2
    rcases hshape2 with ⟨he2, _⟩ | ⟨he2, _⟩
    · rw [he2, hstable]
      exact ⟨by simp [toAdd], by simp [toRemove]⟩
    · rw [he2]
      exact ⟨rfl, rfl⟩
  · intro l hl
    subst hl
    rcases hshape with ⟨he, hc⟩ | ⟨he, _⟩
    swap
    · exact Option.noConfusion he
    have hleq := Option.some.inj he
    have hbsub : baseRoles alltitles mem ⊆
        baseRoles alltitles mem ∪ resolvedRoles cache g nation :=
      Finset.subset_union_left
    have hbdiff : baseRoles alltitles mem \
        (baseRoles alltitles mem ∪ resolvedRoles cache g nation) = ∅ :=
      Finset.sdiff_eq_empty_iff_subset.mpr hbsub
    have hne : (baseRoles alltitles mem ∪ resolvedRoles cache g nation) \
        baseRoles alltitles mem ≠ ∅ := by
      intro h0
      exact hc (by rw [h0, hbdiff]; simp)
    have hlne : l ≠ ∅ := by
      intro h0
      have hu : baseRoles alltitles mem ∪ resolvedRoles cache g nation = ∅ := by
        rw [← hleq, h0]
      refine hne ?_
      rw [hu]
      simp
    exact ⟨hlne, by simp [issuesCall, hlne]⟩
  · intro h0
    rw [h0]
    rfl

/-- C5 witness: on a state where nothing resolves, reconciliation returns
None and no call is issued. -/
theorem c5_reconcile_diff_amended_witness : issuesCall none = false :=
  (c5_reconcile_diff_amended [("ALL", [])] [] [] [(1, "n")] 1 none
    (by decide)).2.2.2.2 rfl

/-- C2: inside a transaction scope a set defers its write-back and
records the touched key, and scope exit commits recorded keys (missing
cleared, present written); but a remove inside the scope raises
`AttributeError` on the undefined `_cm_del` after popping the in-memory
entry, records nothing, and so produces NO persistent clear at commit —
the run below shows the remove of user 1 erroring with an empty
touched-set, whose commit emits no action. -/
theorem c2_scoped_remove_attribute_error :
    csetitem ⟨[(1, "aa")], some []⟩ 2 "bb" =
      (none, ⟨[(1, "aa"), (2, "bb")], some [2]⟩, []) ∧
    cdelitem ⟨[(1, "aa")], some []⟩ 1 =
      (some .attributeError, ⟨[], some []⟩, []) ∧
    caexit ⟨[], some []⟩ = (⟨[], none⟩, []) ∧
    caexit ⟨[(2, "bb")], some [2]⟩ = (⟨[(2, "bb")], none⟩, [.pset 2 "bb"]) ∧
    caexit ⟨[], some [1]⟩ = (⟨[], none⟩, [.pclear 1]) := by
  refine ⟨by decide, by decide, by decide, by decide, by decide⟩

/-- C3: for every user with a live identity entry, the data-deletion
request pops the in-memory entry and then dies with `AttributeError`
inside the transactional remove, so no community is processed at all —
contradicting the claim that every enabled community has the reserved
ALL roles stripped. -/
theorem c3_delete_data_aborts (st : CogState) (requester : String) (uid : UserId)
    (guilds : List Guild) (n : String)
    (hreq : requester ∈ allowedRequesters)
    (hn : lookupFwd st.nations uid = some n) :
    redDeleteData st requester uid guilds =
      ({ st with nations := st.nations.filter fun p => decide (p.1 ≠ uid) },
        [], some .attributeError) := by
  simp [redDeleteData, hreq, hn]

/-- C3 witness: user 1, entry (1, testlandia), one enabled guild — the
request removes the in-memory entry, strips no roles anywhere, and
raises. -/
theorem c3_delete_data_aborts_witness :
    redDeleteData ⟨[(1, "testlandia")], [], [("ALL", ["citizens"])]⟩ "user" 1
        [⟨5, [⟨"Citizens", 10⟩], [1]⟩] =
      (⟨[], [], [("ALL", ["citizens"])]⟩, [], some .attributeError) :=
  (c3_delete_data_aborts ⟨[(1, "testlandia")], [], [("ALL", ["citizens"])]⟩ "user" 1
      [⟨5, [⟨"Citizens", 10⟩], [1]⟩] "testlandia" (by decide) (by decide)).trans
    (by decide)

/-- C10: while the title cache is still the initial empty dict, removal
by any user with a claimed nation deletes the identity entry from
memory, then raises an uncaught `KeyError` on the reserved ALL lookup:
no roles are stripped, no confirmation is sent, and the deletion is not
rolled back. -/
theorem c10_empty_cache_keyerror (st : CogState) (author : UserId)
    (guilds : List Guild) (n : String)
    (hcache : st.cache = [])
    (hn : lookupFwd st.nations author = some n) :
    ∃ d2, bdel st.nations author = .ok d2 ∧
      identifyRemove st author guilds =
        ({ st with nations := d2 }, [], none, some .keyError) ∧
      lookupFwd d2 author = none := by
  have hd : bdel st.nations author =
      .ok (st.nations.filter fun p => decide (p.1 ≠ author)) := by
    unfold bdel
    rw [if_pos (by rw [hn]; rfl)]
  refine ⟨_, hd, ?_, ?_⟩
  · simp [identifyRemove, hd, hcache, assocFind?]
  · rw [lookupFwd_eq_none_iff]
    intro p hp
    have := List.mem_filter.mp hp
    simpa using this.2

/-- C10 witness: user 1 with entry (1, testlandia) and `cache = {}`. -/
theorem c10_empty_cache_keyerror_witness :
    ∃ d2, bdel ([(1, "testlandia")] : Store) 1 = .ok d2 ∧
      identifyRemove ⟨[(1, "testlandia")], [], []⟩ 1 [] =
        (⟨d2, [], []⟩, [], none, some .keyError) ∧
      lookupFwd d2 1 = none :=
  c10_empty_cache_keyerror ⟨[(1, "testlandia")], [], []⟩ 1 [] "testlandia" rfl
    (by decide)

/-- C1: after the startup bulk load and any sequence of set/remove
operations, the in-memory mapping contains no two live entries sharing a
nation key and no two live entries sharing a user id. -/
theorem c1_store_bijective (pairs : List (UserId × String)) (ops : List StoreOp) :
    Bij (ops.foldl applyOp (initializeStore pairs).1) := by
  suffices h : ∀ (l : List StoreOp) (d : Store), Bij d → Bij (l.foldl applyOp d) by
    exact h ops _ (bij_initializeStore pairs)
  intro l
  induction l with
  | nil => intro d h; exact h
  | cons op t ih => intro d h; exact ih _ (bij_applyOp h op)

theorem lookupA_cons (p : UserId × Int) (t : List (UserId × Int)) (u : UserId) :
    lookupA (p :: t) u = if p.1 = u then some p.2 else lookupA t u := by
  simp only [lookupA, List.find?_cons]
  by_cases h : p.1 = u
  · simp [h]
  · simp [h]

theorem lookupA_eq_none_iff (l : List (UserId × Int)) (k : UserId) :
    lookupA l k = none ↔ ∀ p ∈ l, p.1 ≠ k := by
  simp [lookupA, List.find?_eq_none]

theorem lookupA_eraseA_self (l : List (UserId × Int)) (k : UserId) :
    lookupA (eraseA l k) k = none := by
  rw [lookupA_eq_none_iff]
  intro p hp
  simpa using (List.mem_filter.mp hp).2

theorem lookupA_update_self (l : List (UserId × Int)) (k : UserId) (t : Int)
    (h : (lookupA l k).isSome = true) :
    lookupA (l.map fun p => if p.1 = k then (k, t) else p) k = some t := by
  induction l with
  | nil => simp [lookupA] at h
  | cons p l ih =>
      rw [lookupA_cons] at h
      by_cases hp : p.1 = k
      · simp [List.map_cons, hp, lookupA_cons]
      · rw [if_neg hp] at h
        simp only [List.map_cons, if_neg hp, lookupA_cons]
        exact ih h

theorem lookupA_append_self (l : List (UserId × Int)) (k : UserId) (t : Int)
    (h : lookupA l k = none) :
    lookupA (l ++ [(k, t)]) k = some t := by
  induction l with
  | nil => simp [lookupA_cons]
  | cons p l ih =>
      rw [lookupA_cons] at h
      by_cases hp : p.1 = k
      · rw [if_pos hp] at h
        exact Option.noConfusion h
      · rw [if_neg hp] at h
        simp only [List.cons_append, lookupA_cons, if_neg hp]
        exact ih h

theorem lookupA_setA_self (l : List (UserId × Int)) (k : UserId) (t : Int) :
    lookupA (setA l k t) k = some t := by
  unfold setA
  rcases hl : lookupA l k with _ | t0
  · rw [if_neg (by simp)]
    exact lookupA_append_self l k t hl
  · rw [if_pos (by rfl)]
    exact lookupA_update_self l k t (by rw [hl]; rfl)

theorem setNationRest_c6 (st : CogState) (m : UserId) (third : Bool) (now : Int)
    (nation : String) (api : Except ApiError ApiData) (confirm rf : Bool)
    (o : Outcome) (st2 : CogState)
    (h : setNationRest st m third now nation api confirm rf = (o, st2))
    (hd : o = .invalidInput ∨ (∃ u, o = .conflictOther u) ∨ o = .nationNotFound ∨
      o = .noSuchUser ∨ o = .apiUnavailable) :
    st2 = st := by
  simp only [setNationRest] at h
  split at h
  · cases h
    rcases hd with h1 | ⟨u, h1⟩ | h1 | h1 | h1 <;> exact Outcome.noConfusion h1
  · split at h
    · cases h
      rfl
    · cases h
      rfl
    · split at h
      · cases h
        rcases hd with h1 | ⟨u, h1⟩ | h1 | h1 | h1 <;> exact Outcome.noConfusion h1
      · split at h
        · cases h
          rcases hd with h1 | ⟨u, h1⟩ | h1 | h1 | h1 <;> exact Outcome.noConfusion h1
        · cases h
          rcases hd with h1 | ⟨u, h1⟩ | h1 | h1 | h1 <;> exact Outcome.noConfusion h1

theorem setNationRest_shape (st : CogState) (m : UserId) (third : Bool) (now : Int)
    (nation : String) (api : Except ApiError ApiData) (confirm rf : Bool)
    (o : Outcome) (st2 : CogState)
    (h : setNationRest st m third now nation api confirm rf = (o, st2)) :
    (∀ x, o ≠ .cooldownMsg x)
  ∧ (st2.cooldowns = st.cooldowns ∨ st2.cooldowns = setA st.cooldowns m now)
  ∧ (∀ rf2, o = .success rf2 → st2.cooldowns = setA st.cooldowns m now) := by
  simp only [setNationRest] at h
  split at h
  · cases h
    exact ⟨fun x h1 => Outcome.noConfusion h1, Or.inl rfl,
      fun rf2 h1 => Outcome.noConfusion h1⟩
  · split at h
    · cases h
      exact ⟨fun x h1 => Outcome.noConfusion h1, Or.inl rfl,
        fun rf2 h1 => Outcome.noConfusion h1⟩
    · cases h
      exact ⟨fun x h1 => Outcome.noConfusion h1, Or.inl rfl,
        fun rf2 h1 => Outcome.noConfusion h1⟩
    · split at h
      · cases h
        exact ⟨fun x h1 => Outcome.noConfusion h1, Or.inl rfl,
          fun rf2 h1 => Outcome.noConfusion h1⟩
      · split at h
        · cases h
          exact ⟨fun x h1 => Outcome.noConfusion h1, Or.inr rfl,
            fun rf2 h1 => Outcome.noConfusion h1⟩
        · cases h
          exact ⟨fun x h1 => Outcome.noConfusion h1, Or.inr rfl, fun rf2 h1 => rfl⟩

theorem setNation_shape (st : CogState) (member : Option UserId) (third : Bool)
    (now : Int) (parsed : Option (Option String × String))
    (api : Except ApiError ApiData) (confirm rf : Bool) (o : Outcome) (st2 : CogState)
    (h : setNation st member third now parsed api confirm rf = (o, st2)) :
    (∃ mins, cooldownCheck st.cooldowns member third now = .inl mins ∧
       o = .cooldownMsg mins ∧ st2 = st)
  ∨ (∃ cds1, cooldownCheck st.cooldowns member third now = .inr cds1 ∧
       (∀ x, o ≠ .cooldownMsg x) ∧
       (st2.cooldowns = cds1 ∨ ∃ m, member = some m ∧ st2.cooldowns = setA cds1 m now) ∧
       (∀ rf2, o = .success rf2 →
          ∃ m, member = some m ∧ st2.cooldowns = setA cds1 m now)) := by
  simp only [setNation] at h
  split at h
  · rename_i mins heq
    cases h
    exact Or.inl ⟨mins, heq, rfl, rfl⟩
  · rename_i cds1 heq
    refine Or.inr ⟨cds1, heq, ?_⟩
    split at h
    · cases h
      exact ⟨fun x h1 => Outcome.noConfusion h1, Or.inl rfl,
        fun rf2 h1 => Outcome.noConfusion h1⟩
    · split at h
      · cases h
        exact ⟨fun x h1 => Outcome.noConfusion h1, Or.inl rfl,
          fun rf2 h1 => Outcome.noConfusion h1⟩
      · split at h
        · cases h
          exact ⟨fun x h1 => Outcome.noConfusion h1, Or.inl rfl,
            fun rf2 h1 => Outcome.noConfusion h1⟩
        · split at h
          · split at h
            · cases h
              exact ⟨fun x h1 => Outcome.noConfusion h1, Or.inl rfl,
                fun rf2 h1 => Outcome.noConfusion h1⟩
            · split at h
              · cases h
                exact ⟨fun x h1 => Outcome.noConfusion h1, Or.inl rfl,
                  fun rf2 h1 => Outcome.noConfusion h1⟩
              · split at h
                · split at h
                  · cases h
                    exact ⟨fun x h1 => Outcome.noConfusion h1, Or.inl rfl,
                      fun rf2 h1 => Outcome.noConfusion h1⟩
                  · cases h
                    exact ⟨fun x h1 => Outcome.noConfusion h1, Or.inl rfl,
                      fun rf2 h1 => Outcome.noConfusion h1⟩
                · split at h
                  · cases h
                    exact ⟨fun x h1 => Outcome.noConfusion h1, Or.inl rfl,
                      fun rf2 h1 => Outcome.noConfusion h1⟩
                  · obtain ⟨h1, h2, h3⟩ :=
                      setNationRest_shape _ _ _ _ _ _ _ _ _ _ h
                    refine ⟨h1, ?_, ?_⟩
                    · rcases h2 with h2 | h2
                      · exact Or.inl h2
                      · exact Or.inr ⟨_, rfl, h2⟩
                    · intro rf2 hsf
                      exact ⟨_, rfl, h3 rf2 hsf⟩
          · split at h
            · cases h
              exact ⟨fun x h1 => Outcome.noConfusion h1, Or.inl rfl,
                fun rf2 h1 => Outcome.noConfusion h1⟩
            · obtain ⟨h1, h2, h3⟩ := setNationRest_shape _ _ _ _ _ _ _ _ _ _ h
              refine ⟨h1, ?_, ?_⟩
              · rcases h2 with h2 | h2
                · exact Or.inl h2
                · exact Or.inr ⟨_, rfl, h2⟩
              · intro rf2 hsf
                exact ⟨_, rfl, h3 rf2 hsf⟩

/-- C6: for every claim invocation whose outcome is InvalidInput
(unparseable reference or non-nation tag), Conflict (nation claimed by a
different user, self-service), NotFound (nation absent, or target user
absent), or ExternalUnavailable (transport failure during verification),
the outcome is reported and the identity mapping is left unchanged. -/
theorem c6_error_outcomes_preserve_nations
    (st : CogState) (member : Option UserId) (third : Bool) (now : Int)
    (parsed : Option (Option String × String)) (api : Except ApiError ApiData)
    (confirm rf : Bool) (o : Outcome) (st2 : CogState)
    (h : setNation st member third now parsed api confirm rf = (o, st2))
    (hd : o = .invalidInput ∨ (∃ u, o = .conflictOther u) ∨ o = .nationNotFound ∨
      o = .noSuchUser ∨ o = .apiUnavailable) :
    st2.nations = st.nations := by
  simp only [setNation] at h
  split at h
  · cases h
    rcases hd with h1 | ⟨u, h1⟩ | h1 | h1 | h1 <;> exact Outcome.noConfusion h1
  · split at h
    · cases h
      rfl
    · split at h
      · cases h
        rfl
      · split at h
        · cases h
          rcases hd with h1 | ⟨u, h1⟩ | h1 | h1 | h1 <;> exact Outcome.noConfusion h1
        · split at h
          · split at h
            · cases h
              rcases hd with h1 | ⟨u, h1⟩ | h1 | h1 | h1 <;> exact Outcome.noConfusion h1
            · split at h
              · cases h
                rcases hd with h1 | ⟨u, h1⟩ | h1 | h1 | h1 <;> exact Outcome.noConfusion h1
              · split at h
                · split at h
                  · cases h
                    rcases hd with h1 | ⟨u, h1⟩ | h1 | h1 | h1 <;>
                      exact Outcome.noConfusion h1
                  · cases h
                    rcases hd with h1 | ⟨u, h1⟩ | h1 | h1 | h1 <;>
                      exact Outcome.noConfusion h1
                · split at h
                  · cases h
                    rfl
                  · rw [setNationRest_c6 _ _ _ _ _ _ _ _ _ _ h hd]
          · split at h
            · cases h
              rfl
            · rw [setNationRest_c6 _ _ _ _ _ _ _ _ _ _ h hd]

/-- C6 witness: an unparseable input on the empty state reports
InvalidInput and leaves the mapping unchanged. -/
theorem c6_error_outcomes_preserve_nations_witness :
    ((⟨[], [], []⟩ : CogState)).nations = ((⟨[], [], []⟩ : CogState)).nations :=
  c6_error_outcomes_preserve_nations ⟨[], [], []⟩ none false 0 none
    (.error .http) false false .invalidInput ⟨[], [], []⟩ (by decide) (Or.inl rfl)

/-- C7 counterexample: a successful third-party claim (admin sets user 2
to testlandia) writes user 2 into the cooldown table (line 413 is not
guarded by third_party), so admin-issued claims ARE recorded there and
the table does not only hold self-claim timestamps. -/
theorem c7_third_party_stamped_cex :
    (setNation ⟨[], [], []⟩ (some 2) true 1000 (some (none, "testlandia"))
        (.ok ⟨"The North Pacific", "WA Member"⟩) false false).1 = .success false ∧
    (setNation ⟨[], [], []⟩ (some 2) true 1000 (some (none, "testlandia"))
        (.ok ⟨"The North Pacific", "WA Member"⟩) false false).2.cooldowns =
      [(2, 1000)] ∧
    ([(2, 1000)] : List (UserId × Int)) ≠ [] := by
  refine ⟨by decide, by decide, by decide⟩

/-- C7 amended: a self-service claim by a member who claimed less than an
hour ago is rejected with the remaining minutes and no state change; a
stale entry is evicted on that check (afterwards the member is either
absent from the table or freshly stamped); third-party claims are never
blocked by the cooldown; but EVERY successful claim — self-service or
third-party — stamps the target member in the cooldown table. -/
theorem c7_cooldown_amended
    (st : CogState) (member : Option UserId) (third : Bool) (now : Int)
    (parsed : Option (Option String × String)) (api : Except ApiError ApiData)
    (confirm rf : Bool) (o : Outcome) (st2 : CogState)
    (h : setNation st member third now parsed api confirm rf = (o, st2)) :
    (∀ m t, third = false → member = some m → lookupA st.cooldowns m = some t →
       ((0 < t + 3600 - now → o = .cooldownMsg ((t + 3600 - now) / 60) ∧ st2 = st)
      ∧ (t + 3600 - now ≤ 0 →
           lookupA st2.cooldowns m = none ∨ lookupA st2.cooldowns m = some now)))
  ∧ (third = true → ∀ x, o ≠ .cooldownMsg x)
  ∧ (∀ m rf2, member = some m → o = .success rf2 →
       lookupA st2.cooldowns m = some now) := by
  have hshape := setNation_shape st member third now parsed api confirm rf o st2 h
  refine ⟨?_, ?_, ?_⟩
  · intro m t hthird hmem hlook
    constructor
    · intro hpos
      have hcc : cooldownCheck st.cooldowns member third now =
          .inl ((t + 3600 - now) / 60) := by
        simp [cooldownCheck, hthird, hmem, hlook, hpos]
      rcases hshape with ⟨mins, hc, ho, hst⟩ | ⟨cds1, hc, _, _, _⟩
      · have hm := Sum.inl.inj (hcc.symm.trans hc)
        refine ⟨?_, hst⟩
        rw [ho, ← hm]
      · exact Sum.noConfusion (hcc.symm.trans hc)
    · intro hstale
      have hcc : cooldownCheck st.cooldowns member third now =
          .inr (eraseA st.cooldowns m) := by
        simp [cooldownCheck, hthird, hmem, hlook, not_lt.mpr hstale]
      rcases hshape with ⟨mins, hc, _, _⟩ | ⟨cds1, hc, _, hcool, _⟩
      · exact Sum.noConfusion (hcc.symm.trans hc)
      · have hc1 : eraseA st.cooldowns m = cds1 := Sum.inr.inj (hcc.symm.trans hc)
        rcases hcool with h2 | ⟨m2, hm2, h2⟩
        · left
          rw [h2, ← hc1]
          exact lookupA_eraseA_self st.cooldowns m
        · right
          have hm : m2 = m := (Option.some.inj (hmem.symm.trans hm2)).symm
          rw [h2, hm]
          exact lookupA_setA_self cds1 m now
  · intro hthird x
    rcases hshape with ⟨mins, hc, ho, _⟩ | ⟨cds1, _, hno, _, _⟩
    · subst hthird
      simp [cooldownCheck] at hc
    · exact hno x
  · intro m rf2 hmem hsucc
    rcases hshape with ⟨mins, _, ho, _⟩ | ⟨cds1, _, _, _, hsf⟩
    · exact Outcome.noConfusion (ho.symm.trans hsucc)
    · obtain ⟨m2, hm2, h2⟩ := hsf rf2 hsucc
      have hm : m2 = m := (Option.some.inj (hmem.symm.trans hm2)).symm
      rw [h2, hm]
      exact lookupA_setA_self cds1 m now

/-- C7 witness: member 2 claimed at t=500 and tries again at t=1000,
self-service — blocked for 51 minutes with the state untouched. -/
theorem c7_cooldown_amended_witness :
    Outcome.cooldownMsg 51 = .cooldownMsg ((500 + 3600 - 1000) / 60) ∧
    (⟨[], [(2, 500)], []⟩ : CogState) = ⟨[], [(2, 500)], []⟩ :=
  ((c7_cooldown_amended ⟨[], [(2, 500)], []⟩ (some 2) false 1000
      (some (none, "testlandia")) (.ok ⟨"The North Pacific", "WA Member"⟩)
      false false (.cooldownMsg 51) ⟨[], [(2, 500)], []⟩ (by decide)).1
    2 500 rfl rfl (by decide)).1 (by decide)

end Citizenship
